import Mathlib

/-!
Verification development for the Excel service-id script generator.

Strings are modelled as lists of characters. Python string methods used by
the program are embedded as explicit functions on lists:
strip, replace with an empty replacement, lower, upper, startswith,
substring membership, ljust-style field padding and newline joining.
The two logic modules, the workbook matcher and the per-service
aggregator, are translated function by function below.
-/

/-- Whitespace characters recognised by the Python strip method
(space, tab, newline, vertical tab, form feed, carriage return). -/
def isPyWhitespace (c : Char) : Bool :=
  c.toNat == 32 || c.toNat == 9 || c.toNat == 10 || c.toNat == 11 ||
    c.toNat == 12 || c.toNat == 13

/-- Remove trailing whitespace, as the right half of the strip method. -/
def stripBack (l : List Char) : List Char :=
  (l.reverse.dropWhile isPyWhitespace).reverse

/-- Python strip: remove leading and trailing whitespace. -/
def pyStrip (l : List Char) : List Char :=
  stripBack (l.dropWhile isPyWhitespace)

/-- Python replace of a single character by the empty string. -/
def removeChar (c : Char) (l : List Char) : List Char :=
  l.filter fun x => x != c

/-- ASCII lower casing of one character, as the lower method does on ASCII. -/
def pyLowerChar (c : Char) : Char :=
  if 65 ≤ c.toNat ∧ c.toNat ≤ 90 then Char.ofNat (c.toNat + 32) else c

/-- ASCII lower casing of a string. -/
def pyLowerL (l : List Char) : List Char :=
  l.map pyLowerChar

/-- ASCII upper casing of one character, as the upper method does on ASCII. -/
def pyUpperChar (c : Char) : Char :=
  if 97 ≤ c.toNat ∧ c.toNat ≤ 122 then Char.ofNat (c.toNat - 32) else c

/-- ASCII upper casing of a string. -/
def pyUpperL (l : List Char) : List Char :=
  l.map pyUpperChar

/-- Substring membership, as the Python in operator on strings. -/
def containsSub (needle : List Char) : List Char → Bool
  | [] => needle.isEmpty
  | c :: rest => needle.isPrefixOf (c :: rest) || containsSub needle rest

/-- Join a list of strings with a separator, as the join method. -/
def joinWith (sep : List Char) : List (List Char) → List Char
  | [] => []
  | [x] => x
  | x :: y :: xs => x ++ sep ++ joinWith sep (y :: xs)

/-- Index of the first occurrence of a value in a list (length if absent). -/
def firstIdx (x : List Char) : List (List Char) → Nat
  | [] => 0
  | y :: ys => if y = x then 0 else firstIdx x ys + 1

/-- Order-preserving removal of duplicates keeping first occurrences,
the semantics of building a dict from keys and listing it. -/
def pyDedup : List (List Char) → List (List Char)
  | [] => []
  | x :: xs => x :: (pyDedup xs).filter fun y => y != x

/-- Lookup in an insertion-ordered association list (Python dict access). -/
def lookupAssoc {α : Type} (k : List Char) : List (List Char × α) → Option α
  | [] => none
  | p :: rest => if p.1 = k then some p.2 else lookupAssoc k rest

/-!
Code normalizer: the clean_codes static method of ExcelHandler.
Per raw code it strips surrounding whitespace, skips the code if the
result is empty, removes every question mark, space and hyphen in that
order, and keeps the result only when it is nonempty.
-/

/-- One pass of the loop body of clean_codes, as an optional result. -/
def cleanOpt (raw : List Char) : Option (List Char) :=
  let s := pyStrip raw
  if s = [] then none
  else
    let s2 := removeChar '-' (removeChar ' ' (removeChar '?' s))
    if s2 = [] then none else some s2

/-- ExcelHandler.clean_codes: iterate the codes, strip each, drop empties,
remove question marks, spaces and hyphens, drop empties again. -/
def clean_codes : List (List Char) → List (List Char)
  | [] => []
  | raw :: rest =>
    let s := pyStrip raw
    if s = [] then clean_codes rest
    else
      let s2 := removeChar '-' (removeChar ' ' (removeChar '?' s))
      if s2 = [] then clean_codes rest else s2 :: clean_codes rest

/-!
Line formatter: the format_action_lines static method of ExcelHandler.
-/

/-- Sanitize the username: remove double quotes, then single quotes. -/
def sanitizeUser (username : List Char) : List Char :=
  removeChar (Char.ofNat 39) (removeChar (Char.ofNat 34) username)

/-- Template text before the code. -/
def tmplA : List Char :=
  "\x7b \"?.?.".data

/-- Template text between the code and the destination. -/
def tmplB : List Char :=
  "\" \x7d  : Actions SET_DEST_LA(\"".data

/-- Template text after the destination. -/
def tmplC : List Char :=
  "\"),SET_ESME_GROUP(SAG_GROUP_1, A_ADDR)".data

/-- Loop of format_action_lines over the codes, with the already
sanitized username. -/
def formatLoop (u : List Char) : List (List Char) → List (List Char)
  | [] => []
  | code :: rest => (tmplA ++ code ++ tmplB ++ u ++ tmplC) :: formatLoop u rest

/-- ExcelHandler.format_action_lines: sanitize the username once, then
render one fixed-syntax action line per code. -/
def format_action_lines (codes : List (List Char)) (username : List Char) :
    List (List Char) :=
  formatLoop (sanitizeUser username) codes

/-!
Record matcher: the find_service_codes method of ExcelHandler.
A parsed sheet is a header row of column names plus data rows aligned
with the columns; a cell is either missing (NaN) or a stringified value.
The sheet argument of find_service_codes is the outcome of the pandas
parse call: none models the parse raising, caught by the handler.
-/

/-- Parsed sheet: raw column names and rows of optional cell strings. -/
structure Table where
  cols : List (List Char)
  rows : List (List (Option (List Char)))

/-- Stringify a cell as astype(str) does: a missing value reads nan. -/
def cellStr : Option (List Char) → List Char
  | none => "nan".data
  | some s => s

/-- Normalized column names: stringified, lower cased, stripped. -/
def normCols (t : Table) : List (List Char) :=
  t.cols.map fun c => pyStrip (pyLowerL c)

/-- Predicate for the identifier column: name contains service and id. -/
def svcPred (c : List Char) : Bool :=
  containsSub ("service".data) c && containsSub ("id".data) c

/-- Predicate for the code column: name contains sub and identifier. -/
def subPred (c : List Char) : Bool :=
  containsSub ("sub".data) c && containsSub ("identifier".data) c

/-- Canonical service key: strip the input and add the service prefix
when the lower-cased form does not already start with it. -/
def canonService (service_id : List Char) : List Char :=
  let n := pyStrip service_id
  if ("service_".data).isPrefixOf (pyLowerL n) then n
  else "service_".data ++ n

/-- Lower-cased canonical key, the value the row mask compares against. -/
def maskKey (service_id : List Char) : List Char :=
  pyLowerL (canonService service_id)

/-- Rows whose identifier cell, stringified, stripped and lower cased,
equals the key exactly. -/
def matchedRows (t : Table) (i : Nat) (key : List Char) :
    List (List (Option (List Char))) :=
  t.rows.filter fun r => pyLowerL (pyStrip (cellStr (r.getD i none))) == key

/-- Codes of the matching rows: stringified and stripped cell values of
the code column, skipping missing cells and empty strips. -/
def extractCodes (rows : List (List (Option (List Char)))) (j : Nat) :
    List (List Char) :=
  rows.filterMap fun r =>
    match r.getD j none with
    | none => none
    | some v => if pyStrip v = [] then none else some (pyStrip v)

/-- Matching codes before deduplication, following the same control flow
as find_service_codes, with the empty list on every recoverable exit. -/
def rawMatchedCodes (sheet : Option Table) (service_id : List Char) :
    List (List Char) :=
  match sheet with
  | none => []
  | some t =>
    match (normCols t).findIdx? svcPred with
    | none => []
    | some i =>
      let filtered := matchedRows t i (maskKey service_id)
      if filtered = [] then []
      else
        match (normCols t).findIdx? subPred with
        | none => []
        | some j => extractCodes filtered j

/-- ExcelHandler.find_service_codes: parse the sheet, find the identifier
column, filter rows by the canonical key, find the code column, extract
and deduplicate the codes; every recoverable failure returns the empty
list. -/
def find_service_codes (sheet : Option Table) (service_id : List Char) :
    List (List Char) :=
  match sheet with
  | none => []
  | some t =>
    match (normCols t).findIdx? svcPred with
    | none => []
    | some i =>
      let filtered := matchedRows t i (maskKey service_id)
      if filtered = [] then []
      else
        match (normCols t).findIdx? subPred with
        | none => []
        | some j => pyDedup (extractCodes filtered j)

/-!
Service aggregator: generate_service_files of service_summary.py.
The summary table rows are (sheet, service id, username, count) tuples;
service_usernames is an insertion-ordered mapping from service id to
destination username; script_contents maps (sheet, service id) pairs to
the cached action lines.  The output is modelled as the list of
(service id, document text) pairs in write order, together with an
optional service id whose username lookup raised a key error, at which
point iteration stops.
-/

/-- One row of the summary table built by the caller. -/
structure Entry where
  sheet : List Char
  sid : List Char
  user : List Char
  cnt : Nat
deriving DecidableEq

/-- Append a sheet to the list held under a key, adding the key at the
end when absent: the setdefault-and-append idiom on a dict. -/
def updAssoc (k v : List Char) :
    List (List Char × List (List Char)) → List (List Char × List (List Char))
  | [] => [(k, [v])]
  | p :: rest =>
    if p.1 = k then (p.1, p.2 ++ [v]) :: rest else p :: updAssoc k v rest

/-- Group sheet names by service id over the summary table, skipping
rows whose count is zero; insertion order of keys is first-seen order. -/
def buildServiceDict (table : List Entry) :
    List (List Char × List (List Char)) :=
  table.foldl (fun d e => if e.cnt = 0 then d else updAssoc e.sid e.sheet d) []

/-- Cached script lines for a (sheet, service id) pair, defaulting to
the empty list as dict get does. -/
def lookupScripts (sheet sid : List Char)
    (sc : List ((List Char × List Char) × List (List Char))) :
    List (List Char) :=
  match sc.find? (fun p => p.1 = (sheet, sid)) with
  | none => []
  | some p => p.2

/-- Sheet name with spaces replaced by underscores. -/
def underscored (s : List Char) : List Char :=
  s.map fun c => if c = ' ' then '_' else c

/-- Separator block written between consecutive sheet sections. -/
def sepBlock : List Char :=
  "\n*****************************************\n\n".data

/-- Body of one sheet section: the cached lines joined by newlines with
a trailing newline, or nothing when no lines are cached. -/
def sectionBody (sheet sid : List Char)
    (sc : List ((List Char × List Char) × List (List Char))) : List Char :=
  let content := lookupScripts sheet sid sc
  if content = [] then [] else joinWith ("\n".data) content ++ "\n".data

/-- One sheet section: underscored sheet name with the script suffix as
a header line, then the section body. -/
def sheetSection (sid : List Char)
    (sc : List ((List Char × List Char) × List (List Char)))
    (sheet : List Char) : List Char :=
  underscored sheet ++ "_script\n".data ++ sectionBody sheet sid sc

/-- All sheet sections of one service, with the separator block written
after every section except the last. -/
def sheetSections (sid : List Char)
    (sc : List ((List Char × List Char) × List (List Char))) :
    List (List Char) → List Char
  | [] => []
  | [sheet] => sheetSection sid sc sheet
  | sheet :: next :: rest =>
    sheetSection sid sc sheet ++ sepBlock ++ sheetSections sid sc (next :: rest)

/-- Username left-justified in a field of minimum width twelve. -/
def pyLJust12 (s : List Char) : List Char :=
  s ++ List.replicate (12 - s.length) ' '

/-- Full document written for one service: upper-cased username, blank
line, padded username, a space, the prefixed service id, blank line, the
OA line, blank line, then the sheet sections. -/
def mkDoc (username sid : List Char) (sheets : List (List Char))
    (sc : List ((List Char × List Char) × List (List Char))) : List Char :=
  pyUpperL username ++ "\n\n".data ++
    pyLJust12 username ++ " service_".data ++ sid ++ "\n\n".data ++
    "OA: \n\n".data ++
    sheetSections sid sc sheets

/-- Iteration over the grouped services: look up each username, failing
with the offending service id on a missing key, otherwise emit the
document and continue. -/
def writeDocs (users : List (List Char × List Char))
    (sc : List ((List Char × List Char) × List (List Char))) :
    List (List Char × List (List Char)) →
      List (List Char × List Char) × Option (List Char)
  | [] => ([], none)
  | (sid, sheets) :: rest =>
    match lookupAssoc sid users with
    | none => ([], some sid)
    | some username =>
      let d := writeDocs users sc rest
      ((sid, mkDoc username sid sheets sc) :: d.1, d.2)

/-- generate_service_files: group the summary table by service id and
write one summary document per grouped service. -/
def generate_service_files (table : List Entry)
    (users : List (List Char × List Char))
    (sc : List ((List Char × List Char) × List (List Char))) :
    List (List Char × List Char) × Option (List Char) :=
  writeDocs users sc (buildServiceDict table)

/-!
Per-sheet output artifact: the write path of main.py step 9 together
with FileWriter.write_text_file.  The content is the action lines
joined by newlines plus a trailing newline when there is at least one
line; the file name comes from the underscored sheet name and the
service id.
-/

/-- File content produced by write_text_file for a list of lines. -/
def joinLines (lines : List (List Char)) : List Char :=
  joinWith ("\n".data) lines ++ (if lines = [] then [] else "\n".data)

/-- Name and content of the per-sheet artifact for one summary row:
find the codes again, clean them, format them, and write them under the
underscored sheet name and service id. -/
def perSheetArtifact (sheetName : List Char) (sheet : Option Table)
    (sid username : List Char) : List Char × List Char :=
  let codes := find_service_codes sheet sid
  let cleaned := clean_codes codes
  let action_lines := format_action_lines cleaned username
  (underscored sheetName ++ "_".data ++ sid ++ "_script.txt".data,
    joinLines action_lines)

/-!
Helper lemmas about the string primitives.
-/

/-- Character kept by the cleaning step: not a question mark, not a
space, not a hyphen. -/
def keepCode (c : Char) : Bool :=
  !(c == '?' || c == ' ' || c == '-')

/-- Character kept by the destination sanitization: neither a double
quote (34) nor a single quote (39). -/
def keepUser (c : Char) : Bool :=
  !(c == Char.ofNat 34 || c == Char.ofNat 39)

/-- Example sheet: an identifier column, a code column and an unrelated
column, with three case and whitespace variants of one service key, one
other service and one missing code cell. -/
def tstTable : Table :=
  { cols := [("Service_ID ".data), ("Sub-Identifier".data), ("Other".data)]
    rows := [
      [some ("Service_1056".data), some (" 27-84?0001402 ".data), none],
      [some ("service_1056".data), some (" 27-84?0001402 ".data), none],
      [some ("SERVICE_1056 ".data), some ("27-84?0001402".data), none],
      [some ("service_9".data), some ("x".data), none],
      [some ("service_1056".data), none, some ("y".data)]]
  }

/-- Sheet without an identifier column. -/
def tstNoSvc : Table :=
  { cols := [("name".data), ("sub_identifier".data)]
    rows := [[some ("x".data), some ("1".data)]] }

/-- Sheet with an identifier column but no code column. -/
def tstNoSub : Table :=
  { cols := [("service_id".data)]
    rows := [[some ("service_1".data)]] }

/-- Sheet whose single matching code is a bare hyphen, which cleaning
discards entirely. -/
def tstDash : Table :=
  { cols := [("service_id".data), ("sub_identifier".data)]
    rows := [[some ("service_1".data), some ("-".data)]] }

/-- Sheets grouped for one service id: the sheet fields of the summary
rows with nonzero count and that id, in table order. -/
def groupedSheets (table : List Entry) (s : List Char) : List (List Char) :=
  (table.filter fun e => decide (e.cnt ≠ 0) && decide (e.sid = s)).map Entry.sheet

/-- Example summary table with a single matched sheet. -/
def exTable : List Entry :=
  [⟨("A".data), ("1".data), ("u".data), 1⟩]

/-- Example username mapping covering the matched service. -/
def exUsers : List (List Char × List Char) :=
  [(("1".data), ("cell".data))]

/-- Example script cache, empty. -/
def exScripts : List ((List Char × List Char) × List (List Char)) := []

/-- The single document pair the aggregator emits on the example
inputs. -/
def exPair : List Char × List Char :=
  (("1".data), mkDoc ("cell".data) ("1".data) [("A".data)] exScripts)

/-- Document shape asserted by the claim, written from its words: the
padded destination immediately followed by the prefixed service id,
and an OA line without a trailing space. -/
def C6_claimDoc (dest sid : List Char) (sheets : List (List Char))
    (sc : List ((List Char × List Char) × List (List Char))) : List Char :=
  pyUpperL dest ++ "\n\n".data ++ pyLJust12 dest ++ "service_".data ++ sid ++
    "\n\n".data ++ "OA:\n\n".data ++
    joinWith sepBlock (sheets.map fun sh =>
      underscored sh ++ "_script\n".data ++ sectionBody sh sid sc)

theorem keepCode_eq (c : Char) :
    (((c != '-') && (c != ' ')) && (c != '?')) = keepCode c := by
  unfold keepCode
  cases h1 : c == '?' <;> cases h2 : c == ' ' <;> cases h3 : c == '-' <;>
    simp [bne, h1, h2, h3]

theorem removeChar_comp (s : List Char) :
    removeChar '-' (removeChar ' ' (removeChar '?' s)) = s.filter keepCode := by
  unfold removeChar
  rw [List.filter_filter, List.filter_filter]
  exact List.filter_congr fun a _ => keepCode_eq a

theorem cleanOpt_eq (raw : List Char) :
    cleanOpt raw =
      (let t := (pyStrip raw).filter keepCode
       if t = [] then none else some t) := by
  unfold cleanOpt
  by_cases hs : pyStrip raw = []
  · simp [hs]
  · simp only [hs, if_neg]
    rw [removeChar_comp]
    simp [hs]

theorem clean_codes_eq (l : List (List Char)) :
    clean_codes l = l.filterMap cleanOpt := by
  induction l with
  | nil => rfl
  | cons raw rest ih =>
    by_cases hs : pyStrip raw = []
    · simp [clean_codes, cleanOpt, List.filterMap_cons, hs, ih]
    · by_cases hs2 : removeChar '-' (removeChar ' ' (removeChar '?' (pyStrip raw))) = []
      · simp [clean_codes, cleanOpt, List.filterMap_cons, hs, hs2, ih]
      · simp [clean_codes, cleanOpt, List.filterMap_cons, hs, hs2, ih]

theorem mem_clean_codes {s : List Char} {codes : List (List Char)}
    (h : s ∈ clean_codes codes) :
    ∃ raw ∈ codes, s = (pyStrip raw).filter keepCode ∧ s ≠ [] := by
  rw [clean_codes_eq] at h
  obtain ⟨raw, hraw, hopt⟩ := List.mem_filterMap.1 h
  rw [cleanOpt_eq] at hopt
  by_cases ht : (pyStrip raw).filter keepCode = []
  · simp [ht] at hopt
  · refine ⟨raw, hraw, ?_, ?_⟩
    · simp only [ht, if_neg] at hopt
      simp_all
    · simp only [ht, if_neg] at hopt
      intro hnil
      apply ht
      simp_all

theorem mem_of_mem_pyStrip {a : Char} {l : List Char} (h : a ∈ pyStrip l) :
    a ∈ l := by
  unfold pyStrip stripBack at h
  rw [List.mem_reverse] at h
  have h2 := (List.dropWhile_sublist isPyWhitespace).subset h
  rw [List.mem_reverse] at h2
  exact (List.dropWhile_sublist isPyWhitespace).subset h2

theorem dropWhile_eq_self_of_none {l : List Char}
    (h : ∀ c ∈ l, isPyWhitespace c = false) :
    l.dropWhile isPyWhitespace = l := by
  cases l with
  | nil => rfl
  | cons c cs =>
    rw [List.dropWhile_cons, if_neg]
    simp [h c (List.mem_cons_self c cs)]

theorem pyStrip_eq_self_of_none {l : List Char}
    (h : ∀ c ∈ l, isPyWhitespace c = false) :
    pyStrip l = l := by
  unfold pyStrip stripBack
  rw [dropWhile_eq_self_of_none h]
  rw [dropWhile_eq_self_of_none fun c hc => h c (List.mem_reverse.1 hc)]
  exact List.reverse_reverse l

theorem filterMap_cleanOpt_id {l : List (List Char)}
    (h : ∀ a ∈ l, cleanOpt a = some a) : l.filterMap cleanOpt = l := by
  induction l with
  | nil => rfl
  | cons a rest ih =>
    rw [List.filterMap_cons, h a (List.mem_cons_self a rest),
      ih fun b hb => h b (List.mem_cons_of_mem a hb)]

theorem cleanOpt_fixed {s : List Char} (hne : s ≠ [])
    (hnw : ∀ c ∈ s, isPyWhitespace c = false)
    (hkeep : ∀ c ∈ s, keepCode c = true) :
    cleanOpt s = some s := by
  simp only [cleanOpt]
  rw [pyStrip_eq_self_of_none hnw, if_neg hne, removeChar_comp,
    List.filter_eq_self.mpr hkeep, if_neg hne]

/-- C1: clean_codes returns, in input order, each code trimmed of
surrounding whitespace with every question mark, space and hyphen
removed (all other characters, asterisks included, kept unchanged in
their positions), discarding codes that become empty; consequently no
output entry contains a question mark, a space or a hyphen and no
output entry is empty. -/
theorem C1_clean_codes_exact (codes : List (List Char)) :
    clean_codes codes =
      codes.filterMap (fun raw =>
        let t := (pyStrip raw).filter keepCode
        if t = [] then none else some t) ∧
    ∀ s ∈ clean_codes codes, s ≠ [] ∧ '?' ∉ s ∧ ' ' ∉ s ∧ '-' ∉ s := by
  constructor
  · rw [clean_codes_eq]
    exact congrArg (fun f => List.filterMap f codes) (funext cleanOpt_eq)
  · intro s hs
    obtain ⟨raw, _, hform, hne⟩ := mem_clean_codes hs
    subst hform
    refine ⟨hne, ?_, ?_, ?_⟩ <;> intro hmem <;>
      exact absurd (List.mem_filter.1 hmem).2 (by decide)

/-- C7 counterexample: a code with an interior tab followed by a hyphen
cleans to a string with a trailing tab, which a second cleaning pass
strips again, so clean_codes is not idempotent. -/
theorem C7_counterexample :
    clean_codes (clean_codes [['a', Char.ofNat 9, '-']]) ≠
      clean_codes [['a', Char.ofNat 9, '-']] := by decide

/-- C7 amended: clean_codes is idempotent on inputs whose only
whitespace characters are plain spaces. -/
theorem C7_clean_codes_idempotent (codes : List (List Char))
    (h : ∀ s ∈ codes, ∀ c ∈ s, isPyWhitespace c = true → c = ' ') :
    clean_codes (clean_codes codes) = clean_codes codes := by
  rw [clean_codes_eq (clean_codes codes)]
  apply filterMap_cleanOpt_id
  intro s hs
  obtain ⟨raw, hraw, hform, hne⟩ := mem_clean_codes hs
  have hkeep : ∀ c ∈ s, keepCode c = true := by
    intro c hc
    rw [hform] at hc
    exact (List.mem_filter.1 hc).2
  have hnw : ∀ c ∈ s, isPyWhitespace c = false := by
    intro c hc
    cases hx : isPyWhitespace c with
    | false => rfl
    | true =>
      have hc_raw : c ∈ raw := by
        rw [hform] at hc
        exact mem_of_mem_pyStrip (List.mem_filter.1 hc).1
      have hsp := h raw hraw c hc_raw hx
      subst hsp
      exact absurd (hkeep _ hc) (by decide)
  exact cleanOpt_fixed hne hnw hkeep

/-- C7 witness: the amended idempotence applied to one concrete code
containing spaces, hyphens, question marks and an asterisk. -/
theorem C7_witness :
    (∀ s ∈ [(" 2 7-84?*01 ".data)], ∀ c ∈ s, isPyWhitespace c = true → c = ' ') ∧
    clean_codes (clean_codes [(" 2 7-84?*01 ".data)]) =
      clean_codes [(" 2 7-84?*01 ".data)] :=
  ⟨by decide, C7_clean_codes_idempotent _ (by decide)⟩

theorem keepUser_eq (c : Char) :
    ((c != Char.ofNat 39) && (c != Char.ofNat 34)) = keepUser c := by
  unfold keepUser
  cases h1 : c == Char.ofNat 34 <;> cases h2 : c == Char.ofNat 39 <;>
    simp [bne, h1, h2]

theorem sanitizeUser_eq (u : List Char) : sanitizeUser u = u.filter keepUser := by
  unfold sanitizeUser removeChar
  rw [List.filter_filter]
  exact List.filter_congr fun a _ => keepUser_eq a

theorem formatLoop_eq_map (u : List Char) (codes : List (List Char)) :
    formatLoop u codes =
      codes.map fun code => tmplA ++ code ++ tmplB ++ u ++ tmplC := by
  induction codes with
  | nil => rfl
  | cons code rest ih => rw [formatLoop, List.map_cons, ih]

/-- C2: format_action_lines yields exactly one line per code in input
order, each line being the fixed template around the code and the
destination, the latter with every double and single quote removed. -/
theorem C2_format_lines (codes : List (List Char)) (username : List Char) :
    (format_action_lines codes username).length = codes.length ∧
    format_action_lines codes username =
      codes.map fun code =>
        ("\x7b \"?.?.".data) ++ code ++
          ("\" \x7d  : Actions SET_DEST_LA(\"".data) ++
          username.filter keepUser ++
          ("\"),SET_ESME_GROUP(SAG_GROUP_1, A_ADDR)".data) := by
  have h2 : format_action_lines codes username =
      codes.map fun code =>
        ("\x7b \"?.?.".data) ++ code ++
          ("\" \x7d  : Actions SET_DEST_LA(\"".data) ++
          username.filter keepUser ++
          ("\"),SET_ESME_GROUP(SAG_GROUP_1, A_ADDR)".data) := by
    unfold format_action_lines
    rw [sanitizeUser_eq, formatLoop_eq_map]
    rfl
  exact ⟨by rw [h2]; exact List.length_map _ _, h2⟩

theorem mem_pyDedup {a : List Char} : ∀ {l : List (List Char)},
    a ∈ pyDedup l ↔ a ∈ l := by
  intro l
  induction l with
  | nil => simp [pyDedup]
  | cons x xs ih =>
    by_cases hax : a = x
    · subst hax
      simp [pyDedup]
    · simp only [pyDedup, List.mem_cons, List.mem_filter, bne_iff_ne, ne_eq, ih]
      tauto

theorem nodup_pyDedup : ∀ l : List (List Char), (pyDedup l).Nodup := by
  intro l
  induction l with
  | nil => exact List.nodup_nil
  | cons x xs ih =>
    refine List.nodup_cons.2 ⟨?_, ih.filter _⟩
    intro hx
    exact absurd rfl (bne_iff_ne.1 (List.mem_filter.1 hx).2)

theorem firstIdx_cons_self (x : List Char) (xs : List (List Char)) :
    firstIdx x (x :: xs) = 0 := by
  simp [firstIdx]

theorem firstIdx_cons_ne {x y : List Char} (xs : List (List Char)) (h : y ≠ x) :
    firstIdx x (y :: xs) = firstIdx x xs + 1 := by
  simp [firstIdx, h]

theorem pairwise_firstIdx_pyDedup : ∀ l : List (List Char),
    (pyDedup l).Pairwise fun a b => firstIdx a l < firstIdx b l := by
  intro l
  induction l with
  | nil => exact List.Pairwise.nil
  | cons x xs ih =>
    refine List.pairwise_cons.2 ⟨?_, ?_⟩
    · intro b hb
      have hbx : b ≠ x := bne_iff_ne.1 (List.mem_filter.1 hb).2
      rw [firstIdx_cons_self, firstIdx_cons_ne xs (Ne.symm hbx)]
      exact Nat.succ_pos _
    · refine List.Pairwise.imp_of_mem ?_ (ih.filter _)
      intro a b ha hb hlt
      have hax : a ≠ x := bne_iff_ne.1 (List.mem_filter.1 ha).2
      have hbx : b ≠ x := bne_iff_ne.1 (List.mem_filter.1 hb).2
      rw [firstIdx_cons_ne xs (Ne.symm hax), firstIdx_cons_ne xs (Ne.symm hbx)]
      exact Nat.succ_lt_succ hlt

theorem find_eq_pyDedup (sheet : Option Table) (sid : List Char) :
    find_service_codes sheet sid = pyDedup (rawMatchedCodes sheet sid) := by
  cases sheet with
  | none => rfl
  | some t =>
    unfold find_service_codes rawMatchedCodes
    cases hsvc : (normCols t).findIdx? svcPred with
    | none => simp [hsvc, pyDedup]
    | some i =>
      by_cases hrows : matchedRows t i (maskKey sid) = []
      · simp [hsvc, hrows, pyDedup]
      · cases hsub : (normCols t).findIdx? subPred with
        | none => simp [hsvc, hrows, hsub, pyDedup]
        | some j => simp [hsvc, hrows, hsub]

/-- C3: find_service_codes returns the stringified, trimmed, nonempty
code values of the matching rows without duplicates, keeping exactly
the first occurrence of each value so that the output is ordered by
first occurrence in the extracted sequence. -/
theorem C3_find_service_codes_dedup (sheet : Option Table) (sid : List Char) :
    (find_service_codes sheet sid).Nodup ∧
    (∀ x, x ∈ find_service_codes sheet sid ↔ x ∈ rawMatchedCodes sheet sid) ∧
    (find_service_codes sheet sid).Pairwise
      fun a b =>
        firstIdx a (rawMatchedCodes sheet sid) <
          firstIdx b (rawMatchedCodes sheet sid) := by
  rw [find_eq_pyDedup]
  exact ⟨nodup_pyDedup _, fun x => mem_pyDedup, pairwise_firstIdx_pyDedup _⟩

/-- C4: every recoverable condition of find_service_codes — the parse
of the sheet failing, no column containing both service and id, no
column containing both sub and identifier, or no row matching the
canonical key — yields the empty list; the function is total, so no
exception escapes. -/
theorem C4_recoverable_empty (sheet : Option Table) (sid : List Char) :
    (sheet = none → find_service_codes sheet sid = []) ∧
    (∀ t, sheet = some t → (normCols t).findIdx? svcPred = none →
      find_service_codes sheet sid = []) ∧
    (∀ t, sheet = some t → (normCols t).findIdx? subPred = none →
      find_service_codes sheet sid = []) ∧
    (∀ t i, sheet = some t → (normCols t).findIdx? svcPred = some i →
      matchedRows t i (maskKey sid) = [] →
      find_service_codes sheet sid = []) := by
  refine ⟨?_, ?_, ?_, ?_⟩
  · intro h
    subst h
    rfl
  · intro t h hsvc
    subst h
    unfold find_service_codes
    simp [hsvc]
  · intro t h hsub
    subst h
    unfold find_service_codes
    cases hsvc : (normCols t).findIdx? svcPred with
    | none => simp [hsvc]
    | some i =>
      by_cases hrows : matchedRows t i (maskKey sid) = []
      · simp [hsvc, hrows]
      · simp [hsvc, hrows, hsub]
  · intro t i h hsvc hrows
    subst h
    unfold find_service_codes
    simp [hsvc, hrows]

/-- C4 witness: the four recoverable conditions at concrete sheets all
return the empty list. -/
theorem C4_witness :
    find_service_codes none ("1".data) = [] ∧
    find_service_codes (some tstNoSvc) ("1".data) = [] ∧
    find_service_codes (some tstNoSub) ("1".data) = [] ∧
    find_service_codes (some tstTable) ("9999".data) = [] :=
  ⟨(C4_recoverable_empty none _).1 rfl,
   (C4_recoverable_empty _ _).2.1 tstNoSvc rfl (by decide),
   (C4_recoverable_empty _ _).2.2.1 tstNoSub rfl (by decide),
   (C4_recoverable_empty _ _).2.2.2 tstTable 0 rfl (by decide) (by decide)⟩

theorem toNat_ofNat_ascii (n : Nat) (h1 : 97 ≤ n) (h2 : n ≤ 122) :
    (Char.ofNat n).toNat = n := by
  interval_cases n <;> decide

theorem isPyWhitespace_pyLowerChar (c : Char) :
    isPyWhitespace (pyLowerChar c) = isPyWhitespace c := by
  unfold pyLowerChar
  by_cases h : 65 ≤ c.toNat ∧ c.toNat ≤ 90
  · rw [if_pos h]
    have hn : (Char.ofNat (c.toNat + 32)).toNat = c.toNat + 32 :=
      toNat_ofNat_ascii _ (by omega) (by omega)
    have hA : isPyWhitespace c = false := by
      simp only [isPyWhitespace, Bool.or_eq_false_iff, beq_eq_false_iff_ne, ne_eq]
      omega
    have hB : isPyWhitespace (Char.ofNat (c.toNat + 32)) = false := by
      simp only [isPyWhitespace, hn, Bool.or_eq_false_iff, beq_eq_false_iff_ne,
        ne_eq]
      omega
    rw [hA, hB]
  · rw [if_neg h]

theorem dropWhile_pyLowerL (l : List Char) :
    (pyLowerL l).dropWhile isPyWhitespace = pyLowerL (l.dropWhile isPyWhitespace) := by
  unfold pyLowerL
  rw [List.dropWhile_map]
  have hfun : (isPyWhitespace ∘ pyLowerChar) = isPyWhitespace :=
    funext fun c => isPyWhitespace_pyLowerChar c
  rw [hfun]

theorem stripBack_pyLowerL (l : List Char) :
    stripBack (pyLowerL l) = pyLowerL (stripBack l) := by
  unfold stripBack pyLowerL
  rw [← List.map_reverse, List.dropWhile_map]
  have hfun : (isPyWhitespace ∘ pyLowerChar) = isPyWhitespace :=
    funext fun c => isPyWhitespace_pyLowerChar c
  rw [hfun, List.map_reverse]

theorem pyStrip_pyLowerL (l : List Char) :
    pyStrip (pyLowerL l) = pyLowerL (pyStrip l) := by
  unfold pyStrip
  rw [dropWhile_pyLowerL, stripBack_pyLowerL]

theorem dropWhile_append_all {ws m : List Char}
    (h : ∀ c ∈ ws, isPyWhitespace c = true) :
    (ws ++ m).dropWhile isPyWhitespace = m.dropWhile isPyWhitespace := by
  induction ws with
  | nil => rfl
  | cons c cs ih =>
    rw [List.cons_append, List.dropWhile_cons,
      if_pos (h c (List.mem_cons_self c cs))]
    exact ih fun d hd => h d (List.mem_cons_of_mem c hd)

theorem stripBack_append_all {ws m : List Char}
    (h : ∀ c ∈ ws, isPyWhitespace c = true) :
    stripBack (m ++ ws) = stripBack m := by
  unfold stripBack
  rw [List.reverse_append]
  rw [dropWhile_append_all fun c hc => h c (List.mem_reverse.1 hc)]

theorem pyStrip_pad {ws1 ws2 s : List Char}
    (h1 : ∀ c ∈ ws1, isPyWhitespace c = true)
    (h2 : ∀ c ∈ ws2, isPyWhitespace c = true) :
    pyStrip (ws1 ++ s ++ ws2) = pyStrip s := by
  unfold pyStrip
  rw [List.append_assoc, dropWhile_append_all h1]
  by_cases hd : s.dropWhile isPyWhitespace = []
  · have hws2 : (s ++ ws2).dropWhile isPyWhitespace = [] := by
      rw [List.dropWhile_append, hd]
      simp only [List.isEmpty_nil, if_pos]
      have := dropWhile_append_all (m := ([] : List Char)) h2
      rw [List.append_nil] at this
      rw [this]
      rfl
    rw [hws2, hd]
  · have hsplit : (s ++ ws2).dropWhile isPyWhitespace =
        s.dropWhile isPyWhitespace ++ ws2 := by
      rw [List.dropWhile_append]
      cases hx : s.dropWhile isPyWhitespace with
      | nil => exact absurd hx hd
      | cons a l => simp
    rw [hsplit]
    exact stripBack_append_all h2

theorem length_stripBack_le (l : List Char) : (stripBack l).length ≤ l.length := by
  unfold stripBack
  rw [List.length_reverse]
  calc (l.reverse.dropWhile isPyWhitespace).length
      ≤ l.reverse.length := (List.dropWhile_sublist isPyWhitespace).length_le
    _ = l.length := List.length_reverse l

theorem dropWhile_eq_self_of_pyStrip {s : List Char} (h : pyStrip s = s) :
    s.dropWhile isPyWhitespace = s := by
  have hsub : (s.dropWhile isPyWhitespace).Sublist s :=
    List.dropWhile_sublist isPyWhitespace
  apply hsub.eq_of_length
  have h1 : (pyStrip s).length = s.length := by rw [h]
  have h2 : (pyStrip s).length ≤ (s.dropWhile isPyWhitespace).length :=
    length_stripBack_le _
  have h3 : (s.dropWhile isPyWhitespace).length ≤ s.length := hsub.length_le
  omega

theorem stripBack_eq_self_of_pyStrip {s : List Char} (h : pyStrip s = s) :
    stripBack s = s := by
  have hd := dropWhile_eq_self_of_pyStrip h
  unfold pyStrip at h
  rw [hd] at h
  exact h

theorem dropWhile_reverse_eq_of_pyStrip {s : List Char} (h : pyStrip s = s) :
    s.reverse.dropWhile isPyWhitespace = s.reverse := by
  have hb := stripBack_eq_self_of_pyStrip h
  unfold stripBack at hb
  have hc := congrArg List.reverse hb
  rw [List.reverse_reverse] at hc
  exact hc

theorem dropWhile_append_left_fixed {l m : List Char}
    (h : l.dropWhile isPyWhitespace = l) (hne : l ≠ []) :
    (l ++ m).dropWhile isPyWhitespace = l ++ m := by
  cases l with
  | nil => exact absurd rfl hne
  | cons c cs =>
    rw [List.cons_append, List.dropWhile_cons]
    rw [List.dropWhile_cons] at h
    by_cases hc : isPyWhitespace c = true
    · rw [if_pos hc] at h
      have hlen := congrArg List.length h
      rw [List.length_cons] at hlen
      have hle : (cs.dropWhile isPyWhitespace).length ≤ cs.length :=
        (List.dropWhile_sublist isPyWhitespace).length_le
      omega
    · rw [if_neg hc]

theorem pyStrip_service_append {s : List Char} (h : pyStrip s = s) :
    pyStrip (("service_".data) ++ s) = ("service_".data) ++ s := by
  unfold pyStrip
  rw [dropWhile_append_left_fixed (by decide) (by decide)]
  unfold stripBack
  rw [List.reverse_append]
  by_cases hs : s = []
  · subst hs
    decide
  · have hrev : s.reverse.dropWhile isPyWhitespace = s.reverse :=
      dropWhile_reverse_eq_of_pyStrip h
    have hrevne : s.reverse ≠ [] := by
      simpa using hs
    rw [dropWhile_append_left_fixed hrev hrevne]
    simp [List.reverse_append, List.reverse_reverse]

theorem pyLowerL_append (a b : List Char) :
    pyLowerL (a ++ b) = pyLowerL a ++ pyLowerL b :=
  List.map_append pyLowerChar a b

theorem pyLowerL_service : pyLowerL ("service_".data) = "service_".data := by
  decide

theorem maskKey_push (s : List Char) :
    maskKey s =
      (if ("service_".data).isPrefixOf (pyLowerL (pyStrip s)) then
        pyLowerL (pyStrip s)
      else ("service_".data) ++ pyLowerL (pyStrip s)) := by
  unfold maskKey canonService
  by_cases hp : ("service_".data).isPrefixOf (pyLowerL (pyStrip s)) = true
  · simp only [hp, if_true]
  · simp only [hp, if_false, Bool.false_eq_true]
    rw [pyLowerL_append, pyLowerL_service]

theorem maskKey_lower_congr {s t : List Char} (h : pyLowerL s = pyLowerL t) :
    maskKey s = maskKey t := by
  have hst : pyLowerL (pyStrip s) = pyLowerL (pyStrip t) := by
    rw [← pyStrip_pyLowerL, ← pyStrip_pyLowerL, h]
  rw [maskKey_push, maskKey_push, hst]

theorem maskKey_pad {ws1 ws2 s : List Char}
    (h1 : ∀ c ∈ ws1, isPyWhitespace c = true)
    (h2 : ∀ c ∈ ws2, isPyWhitespace c = true) :
    maskKey (ws1 ++ s ++ ws2) = maskKey s := by
  rw [maskKey_push, maskKey_push, pyStrip_pad h1 h2]

theorem maskKey_service_append {s : List Char} (hstrip : pyStrip s = s)
    (hp : ("service_".data).isPrefixOf (pyLowerL s) = false) :
    maskKey (("service_".data) ++ s) = maskKey s := by
  rw [maskKey_push, maskKey_push, pyStrip_service_append hstrip, hstrip]
  have hpre : ("service_".data).isPrefixOf (("service_".data) ++ pyLowerL s) = true :=
    List.isPrefixOf_iff_prefix.2 (List.prefix_append _ _)
  rw [pyLowerL_append, pyLowerL_service]
  simp [hpre, hp]

theorem find_congr_maskKey (sheet : Option Table) {s t : List Char}
    (h : maskKey s = maskKey t) :
    find_service_codes sheet s = find_service_codes sheet t := by
  unfold find_service_codes
  rw [h]

/-- C8 counterexample: with a service id that carries leading
whitespace and does not start with the prefix, prepending the prefix
changes the result: stripping happens before the prefix check, so the
prefixed form keeps an interior space in the key and matches nothing. -/
theorem C8_counterexample :
    ("service_".data).isPrefixOf (pyLowerL (" 1056".data)) = false ∧
    find_service_codes (some tstTable) (" 1056".data) ≠
      find_service_codes (some tstTable) (("service_".data) ++ " 1056".data) := by
  decide

/-- C8 amended: for ids without surrounding whitespace the bare and
prefixed forms agree; for all ids the result is invariant under letter
case changes and under added surrounding whitespace. -/
theorem C8_service_id_invariance :
    (∀ (sheet : Option Table) (s : List Char), pyStrip s = s →
      ("service_".data).isPrefixOf (pyLowerL s) = false →
      find_service_codes sheet s =
        find_service_codes sheet (("service_".data) ++ s)) ∧
    (∀ (sheet : Option Table) (s t : List Char), pyLowerL s = pyLowerL t →
      find_service_codes sheet s = find_service_codes sheet t) ∧
    (∀ (sheet : Option Table) (s ws1 ws2 : List Char),
      (∀ c ∈ ws1, isPyWhitespace c = true) →
      (∀ c ∈ ws2, isPyWhitespace c = true) →
      find_service_codes sheet (ws1 ++ s ++ ws2) = find_service_codes sheet s) :=
  ⟨fun sheet s hstrip hp =>
      find_congr_maskKey sheet (maskKey_service_append hstrip hp).symm,
   fun sheet s t h => find_congr_maskKey sheet (maskKey_lower_congr h),
   fun sheet s ws1 ws2 h1 h2 => find_congr_maskKey sheet (maskKey_pad h1 h2)⟩

/-- C8 witness: the three invariances at the concrete example sheet,
with a bare id, an upper-cased id and a whitespace-padded id. -/
theorem C8_witness :
    find_service_codes (some tstTable) ("1056".data) =
      find_service_codes (some tstTable) (("service_".data) ++ "1056".data) ∧
    find_service_codes (some tstTable) ("SERVICE_1056".data) =
      find_service_codes (some tstTable) ("service_1056".data) ∧
    find_service_codes (some tstTable) ((" ".data) ++ "service_1056".data ++ "\t".data) =
      find_service_codes (some tstTable) ("service_1056".data) :=
  ⟨C8_service_id_invariance.1 (some tstTable) _ (by decide) (by decide),
   C8_service_id_invariance.2.1 (some tstTable) _ _ (by decide),
   C8_service_id_invariance.2.2 (some tstTable) _ _ _ (by decide) (by decide)⟩

/-- C9 counterexample: one raw code is found, so the count is positive
and the artifact is written, but the code cleans to nothing, the action
lines are empty and the written content is empty rather than carrying a
trailing newline. -/
theorem C9_counterexample :
    (find_service_codes (some tstDash) ("1".data)).length = 1 ∧
    (perSheetArtifact ("A".data) (some tstDash) ("1".data) ("u".data)).2 ≠
      joinWith ("\n".data)
        (format_action_lines
          (clean_codes (find_service_codes (some tstDash) ("1".data)))
          ("u".data)) ++
      "\n".data := by
  decide

/-- C9 amended: for a pair with a positive count and a nonempty list of
action lines, the artifact path is the underscored sheet name with the
service id and script suffix, and the content is the action lines
joined by newlines with one trailing newline. -/
theorem C9_per_sheet_artifact (sheetName : List Char) (sheet : Option Table)
    (sid username : List Char)
    (hcount : find_service_codes sheet sid ≠ [])
    (hlines :
      format_action_lines (clean_codes (find_service_codes sheet sid)) username ≠ []) :
    (perSheetArtifact sheetName sheet sid username).1 =
      underscored sheetName ++ "_".data ++ sid ++ "_script.txt".data ∧
    (perSheetArtifact sheetName sheet sid username).2 =
      joinWith ("\n".data)
        (format_action_lines (clean_codes (find_service_codes sheet sid)) username) ++
      "\n".data := by
  constructor
  · rfl
  · unfold perSheetArtifact joinLines
    simp [hlines]

/-- C9 witness: the amended statement applied to the example sheet. -/
theorem C9_witness :
    find_service_codes (some tstTable) ("1056".data) ≠ [] ∧
    (perSheetArtifact ("Sheet A".data) (some tstTable) ("1056".data)
        ("cellfsc".data)).1 =
      underscored ("Sheet A".data) ++ "_".data ++ "1056".data ++
        "_script.txt".data ∧
    (perSheetArtifact ("Sheet A".data) (some tstTable) ("1056".data)
        ("cellfsc".data)).2 =
      joinWith ("\n".data)
        (format_action_lines
          (clean_codes (find_service_codes (some tstTable) ("1056".data)))
          ("cellfsc".data)) ++
      "\n".data :=
  ⟨by decide,
   (C9_per_sheet_artifact _ _ _ _ (by decide) (by decide)).1,
   (C9_per_sheet_artifact _ _ _ _ (by decide) (by decide)).2⟩

theorem lookupAssoc_updAssoc_self (k v : List Char) :
    ∀ d, lookupAssoc k (updAssoc k v d) =
      some ((lookupAssoc k d).getD [] ++ [v]) := by
  intro d
  induction d with
  | nil => simp [updAssoc, lookupAssoc]
  | cons p rest ih =>
    by_cases hp : p.1 = k
    · simp [updAssoc, lookupAssoc, hp]
    · simp [updAssoc, lookupAssoc, hp, ih]

theorem lookupAssoc_updAssoc_ne {k k' : List Char} (v : List Char) (h : k' ≠ k) :
    ∀ d, lookupAssoc k' (updAssoc k v d) = lookupAssoc k' d := by
  intro d
  induction d with
  | nil => simp [updAssoc, lookupAssoc, Ne.symm h]
  | cons p rest ih =>
    by_cases hp : p.1 = k
    · rw [updAssoc, if_pos hp]
      by_cases hp' : p.1 = k'
      · exact absurd (hp'.symm.trans hp) h
      · simp [lookupAssoc, hp']
    · rw [updAssoc, if_neg hp]
      by_cases hp' : p.1 = k'
      · simp [lookupAssoc, hp']
      · simp [lookupAssoc, hp', ih]

theorem groupedSheets_cons_zero {e : Entry} {rest : List Entry} {s : List Char}
    (h : e.cnt = 0) :
    groupedSheets (e :: rest) s = groupedSheets rest s := by
  unfold groupedSheets
  rw [List.filter_cons]
  simp [h]

theorem groupedSheets_cons_match {e : Entry} {rest : List Entry} {s : List Char}
    (h : e.cnt ≠ 0) (hs : e.sid = s) :
    groupedSheets (e :: rest) s = e.sheet :: groupedSheets rest s := by
  unfold groupedSheets
  rw [List.filter_cons]
  simp [h, hs]

theorem groupedSheets_cons_other {e : Entry} {rest : List Entry} {s : List Char}
    (hs : e.sid ≠ s) :
    groupedSheets (e :: rest) s = groupedSheets rest s := by
  unfold groupedSheets
  rw [List.filter_cons]
  simp [hs]

theorem lookupAssoc_foldl (s : List Char) (table : List Entry) :
    ∀ d, lookupAssoc s
        (table.foldl
          (fun d e => if e.cnt = 0 then d else updAssoc e.sid e.sheet d) d) =
      (match lookupAssoc s d with
      | some vs => some (vs ++ groupedSheets table s)
      | none =>
          if groupedSheets table s = [] then none
          else some (groupedSheets table s)) := by
  induction table with
  | nil =>
    intro d
    have hg : groupedSheets [] s = [] := rfl
    cases h : lookupAssoc s d <;> simp [h, hg]
  | cons e rest ih =>
    intro d
    simp only [List.foldl_cons]
    by_cases hc : e.cnt = 0
    · rw [if_pos hc, ih d, groupedSheets_cons_zero hc]
    · rw [if_neg hc, ih (updAssoc e.sid e.sheet d)]
      by_cases hsid : e.sid = s
      · rw [groupedSheets_cons_match hc hsid, hsid,
          lookupAssoc_updAssoc_self s e.sheet d]
        cases h : lookupAssoc s d <;> simp [h]
      · rw [groupedSheets_cons_other hsid,
          lookupAssoc_updAssoc_ne e.sheet (fun hh => hsid hh.symm) d]

theorem lookupAssoc_buildServiceDict (table : List Entry) (s : List Char) :
    lookupAssoc s (buildServiceDict table) =
      if groupedSheets table s = [] then none
      else some (groupedSheets table s) := by
  unfold buildServiceDict
  rw [lookupAssoc_foldl]
  rfl

theorem map_fst_updAssoc (k v : List Char) :
    ∀ d, (updAssoc k v d).map Prod.fst =
      (if (lookupAssoc k d).isSome then d.map Prod.fst
      else d.map Prod.fst ++ [k]) := by
  intro d
  induction d with
  | nil => simp [updAssoc, lookupAssoc]
  | cons p rest ih =>
    by_cases hp : p.1 = k
    · simp [updAssoc, lookupAssoc, hp]
    · by_cases hl : (lookupAssoc k rest).isSome = true
      · simp [updAssoc, lookupAssoc, hp, ih, hl]
      · simp [updAssoc, lookupAssoc, hp, ih, hl]

theorem mem_keys_iff_lookup {α : Type} (s : List Char) :
    ∀ d : List (List Char × α),
      s ∈ d.map Prod.fst ↔ (lookupAssoc s d).isSome = true := by
  intro d
  induction d with
  | nil => simp [lookupAssoc]
  | cons p rest ih =>
    by_cases hp : p.1 = s
    · constructor
      · intro _
        rw [lookupAssoc, if_pos hp]
        rfl
      · intro _
        rw [List.map_cons, hp]
        exact List.mem_cons_self _ _
    · rw [List.map_cons, List.mem_cons, lookupAssoc, if_neg hp, ← ih]
      constructor
      · intro hor
        rcases hor with heq | hmem
        · exact absurd heq.symm hp
        · exact hmem
      · intro hmem
        exact Or.inr hmem

theorem nodup_keys_foldl :
    ∀ (table : List Entry) (d : List (List Char × List (List Char))),
      (d.map Prod.fst).Nodup →
      ((table.foldl
          (fun d e => if e.cnt = 0 then d else updAssoc e.sid e.sheet d)
          d).map Prod.fst).Nodup := by
  intro table
  induction table with
  | nil => intro d h; simpa using h
  | cons e rest ih =>
    intro d h
    simp only [List.foldl_cons]
    by_cases hc : e.cnt = 0
    · rw [if_pos hc]
      exact ih d h
    · rw [if_neg hc]
      apply ih
      rw [map_fst_updAssoc]
      by_cases hl : (lookupAssoc e.sid d).isSome = true
      · rw [if_pos hl]
        exact h
      · rw [if_neg hl]
        rw [List.nodup_append]
        refine ⟨h, List.nodup_singleton _, ?_⟩
        intro a ha hb
        rw [List.mem_singleton] at hb
        subst hb
        rw [mem_keys_iff_lookup] at ha
        exact hl ha

theorem nodup_keys_buildServiceDict (table : List Entry) :
    ((buildServiceDict table).map Prod.fst).Nodup :=
  nodup_keys_foldl table [] (by simp)

theorem mem_of_lookupAssoc {α : Type} {k : List Char} {v : α} :
    ∀ {d}, lookupAssoc k d = some v → (k, v) ∈ d := by
  intro d
  induction d with
  | nil =>
    intro h
    simp [lookupAssoc] at h
  | cons p rest ih =>
    intro h
    obtain ⟨a, b⟩ := p
    by_cases hp : a = k
    · simp only [lookupAssoc, hp, if_pos] at h
      injection h with h2
      subst hp
      subst h2
      exact List.mem_cons_self _ _
    · simp only [lookupAssoc, hp, if_neg, if_false] at h
      exact List.mem_cons_of_mem _ (ih h)

theorem lookupAssoc_eq_of_mem_nodup {α : Type} {k : List Char} {v : α} :
    ∀ {d}, (k, v) ∈ d → (d.map Prod.fst).Nodup → lookupAssoc k d = some v := by
  intro d
  induction d with
  | nil =>
    intro h
    simp at h
  | cons p rest ih =>
    intro hmem hnodup
    obtain ⟨a, b⟩ := p
    rw [List.map_cons, List.nodup_cons] at hnodup
    rcases List.mem_cons.1 hmem with heq | hmem'
    · rw [Prod.mk.injEq] at heq
      obtain ⟨h1, h2⟩ := heq
      simp [lookupAssoc, h1, h2]
    · by_cases hp : a = k
      · subst hp
        have : a ∈ rest.map Prod.fst :=
          List.mem_map_of_mem Prod.fst hmem'
        exact absurd this hnodup.1
      · rw [lookupAssoc, if_neg hp]
        exact ih hmem' hnodup.2

theorem writeDocs_ok (users : List (List Char × List Char))
    (sc : List ((List Char × List Char) × List (List Char))) :
    ∀ dict, (∀ q ∈ dict, (lookupAssoc q.1 users).isSome = true) →
      writeDocs users sc dict =
        (dict.map fun q =>
          (q.1, mkDoc ((lookupAssoc q.1 users).getD []) q.1 q.2 sc),
         none) := by
  intro dict
  induction dict with
  | nil => intro _; rfl
  | cons q rest ih =>
    intro h
    obtain ⟨sid, sheets⟩ := q
    have hq := h _ (List.mem_cons_self _ _)
    cases hu : lookupAssoc sid users with
    | none =>
      rw [hu] at hq
      simp at hq
    | some u =>
      simp only [writeDocs, hu]
      rw [ih fun b hb => h b (List.mem_cons_of_mem _ hb)]
      simp [hu]

theorem writeDocs_err (users : List (List Char × List Char))
    (sc : List ((List Char × List Char) × List (List Char))) :
    ∀ dict, (∃ q ∈ dict, lookupAssoc q.1 users = none) →
      ∃ s, (writeDocs users sc dict).2 = some s ∧
        lookupAssoc s users = none ∧
        ∀ p ∈ (writeDocs users sc dict).1, p.1 ≠ s := by
  intro dict
  induction dict with
  | nil =>
    rintro ⟨q, hq, _⟩
    simp at hq
  | cons q rest ih =>
    rintro ⟨q', hq', hnone⟩
    obtain ⟨sid, sheets⟩ := q
    cases hu : lookupAssoc sid users with
    | none =>
      refine ⟨sid, ?_, hu, ?_⟩
      · simp [writeDocs, hu]
      · simp [writeDocs, hu]
    | some u =>
      have hq'rest : q' ∈ rest := by
        rcases List.mem_cons.1 hq' with heq | hm
        · rw [heq] at hnone
          rw [hnone] at hu
          exact absurd hu (by simp)
        · exact hm
      obtain ⟨s, hs2, hsnone, hs1⟩ := ih ⟨q', hq'rest, hnone⟩
      refine ⟨s, ?_, hsnone, ?_⟩
      · simp only [writeDocs, hu]
        exact hs2
      · intro p hp
        simp only [writeDocs, hu, List.mem_cons] at hp
        rcases hp with heq | hm
        · rw [heq]
          intro hps
          have hps' : sid = s := hps
          rw [hps'] at hu
          rw [hu] at hsnone
          exact absurd hsnone (by simp)
        · exact hs1 p hm

theorem groupedSheets_ne_nil_iff (table : List Entry) (s : List Char) :
    groupedSheets table s ≠ [] ↔ ∃ e ∈ table, e.sid = s ∧ e.cnt ≠ 0 := by
  induction table with
  | nil => simp [groupedSheets]
  | cons e rest ih =>
    by_cases hc : e.cnt = 0
    · rw [groupedSheets_cons_zero hc]
      rw [ih]
      constructor
      · rintro ⟨a, ha, h1, h2⟩
        exact ⟨a, List.mem_cons_of_mem e ha, h1, h2⟩
      · rintro ⟨a, ha, h1, h2⟩
        rcases List.mem_cons.1 ha with heq | hm
        · subst heq
          exact absurd hc h2
        · exact ⟨a, hm, h1, h2⟩
    · by_cases hs : e.sid = s
      · rw [groupedSheets_cons_match hc hs]
        constructor
        · intro _
          exact ⟨e, List.mem_cons_self e rest, hs, hc⟩
        · intro _
          exact List.cons_ne_nil _ _
      · rw [groupedSheets_cons_other hs]
        rw [ih]
        constructor
        · rintro ⟨a, ha, h1, h2⟩
          exact ⟨a, List.mem_cons_of_mem e ha, h1, h2⟩
        · rintro ⟨a, ha, h1, h2⟩
          rcases List.mem_cons.1 ha with heq | hm
          · subst heq
            exact absurd h1 hs
          · exact ⟨a, hm, h1, h2⟩

theorem users_total_dict (table : List Entry)
    (users : List (List Char × List Char))
    (h : ∀ e ∈ table, e.cnt ≠ 0 → (lookupAssoc e.sid users).isSome = true) :
    ∀ q ∈ buildServiceDict table, (lookupAssoc q.1 users).isSome = true := by
  intro q hq
  have hkey : q.1 ∈ (buildServiceDict table).map Prod.fst :=
    List.mem_map_of_mem Prod.fst hq
  rw [mem_keys_iff_lookup] at hkey
  rw [lookupAssoc_buildServiceDict] at hkey
  by_cases hg : groupedSheets table q.1 = []
  · rw [if_pos hg] at hkey
    simp at hkey
  · obtain ⟨e, he, hsid, hcnt⟩ := (groupedSheets_ne_nil_iff _ _).1 hg
    have hres := h e he hcnt
    rw [hsid] at hres
    exact hres

theorem gen_docs_spec (table : List Entry)
    (users : List (List Char × List Char))
    (sc : List ((List Char × List Char) × List (List Char)))
    (h : ∀ e ∈ table, e.cnt ≠ 0 → (lookupAssoc e.sid users).isSome = true) :
    ∀ p ∈ (generate_service_files table users sc).1,
      ∃ u, lookupAssoc p.1 users = some u ∧
        p.2 = mkDoc u p.1 (groupedSheets table p.1) sc := by
  intro p hp
  unfold generate_service_files at hp
  rw [writeDocs_ok users sc _ (users_total_dict table users h)] at hp
  rw [List.mem_map] at hp
  obtain ⟨q, hq, heq⟩ := hp
  have hsome := users_total_dict table users h q hq
  obtain ⟨u, hu⟩ := Option.isSome_iff_exists.1 hsome
  have hlk : lookupAssoc q.1 (buildServiceDict table) = some q.2 :=
    lookupAssoc_eq_of_mem_nodup hq (nodup_keys_buildServiceDict table)
  rw [lookupAssoc_buildServiceDict] at hlk
  by_cases hg : groupedSheets table q.1 = []
  · rw [if_pos hg] at hlk
    exact absurd hlk (by simp)
  · rw [if_neg hg] at hlk
    injection hlk with hq2
    rw [← heq]
    refine ⟨u, hu, ?_⟩
    rw [hu]
    simp only [Option.getD_some]
    rw [← hq2]

theorem sheetSections_eq_joinWith (sid : List Char)
    (sc : List ((List Char × List Char) × List (List Char))) :
    ∀ sheets, sheetSections sid sc sheets =
      joinWith sepBlock (sheets.map (sheetSection sid sc)) := by
  intro sheets
  induction sheets with
  | nil => rfl
  | cons sh rest ih =>
    cases rest with
    | nil => rfl
    | cons sh2 rest2 =>
      rw [sheetSections, ih]
      rfl

/-- C10: when a summary row with positive count carries a service id
absent from the username mapping, the aggregator stops with that id as
a lookup failure and never emits a document for it; when every such id
is present, the lookup failure branch is unreachable. -/
theorem C10_missing_username (table : List Entry)
    (users : List (List Char × List Char))
    (sc : List ((List Char × List Char) × List (List Char))) :
    ((∃ e ∈ table, e.cnt ≠ 0 ∧ lookupAssoc e.sid users = none) →
      ∃ s, (generate_service_files table users sc).2 = some s ∧
        lookupAssoc s users = none ∧
        ∀ p ∈ (generate_service_files table users sc).1, p.1 ≠ s) ∧
    ((∀ e ∈ table, e.cnt ≠ 0 → (lookupAssoc e.sid users).isSome = true) →
      (generate_service_files table users sc).2 = none) := by
  constructor
  · rintro ⟨e, he, hcnt, hnone⟩
    apply writeDocs_err
    have hg : groupedSheets table e.sid ≠ [] :=
      (groupedSheets_ne_nil_iff _ _).2 ⟨e, he, rfl, hcnt⟩
    have hl := lookupAssoc_buildServiceDict table e.sid
    rw [if_neg hg] at hl
    exact ⟨(e.sid, groupedSheets table e.sid), mem_of_lookupAssoc hl, hnone⟩
  · intro h
    unfold generate_service_files
    rw [writeDocs_ok users sc _ (users_total_dict table users h)]

/-- C10 witness: an empty username mapping makes the single matched
service fail its lookup with no document written, while the complete
mapping finishes without a lookup failure. -/
theorem C10_witness :
    (∃ s, (generate_service_files exTable [] exScripts).2 = some s ∧
      lookupAssoc s ([] : List (List Char × List Char)) = none ∧
      ∀ p ∈ (generate_service_files exTable [] exScripts).1, p.1 ≠ s) ∧
    (generate_service_files exTable exUsers exScripts).2 = none :=
  ⟨(C10_missing_username exTable [] exScripts).1
      ⟨⟨("A".data), ("1".data), ("u".data), 1⟩, by decide, by decide, rfl⟩,
   (C10_missing_username exTable exUsers exScripts).2 (by decide)⟩

/-- C5: under a username mapping covering every service with a nonzero
count, the aggregator finishes without a lookup failure and emits
exactly one document per service id that has at least one summary row
with positive count, each document built from that service's sheets in
first-seen table order; services whose counts are all zero get no
document. -/
theorem C5_one_document_per_service (table : List Entry)
    (users : List (List Char × List Char))
    (sc : List ((List Char × List Char) × List (List Char)))
    (h : ∀ e ∈ table, e.cnt ≠ 0 → (lookupAssoc e.sid users).isSome = true) :
    (generate_service_files table users sc).2 = none ∧
    ((generate_service_files table users sc).1.map Prod.fst).Nodup ∧
    (∀ s, s ∈ (generate_service_files table users sc).1.map Prod.fst ↔
      ∃ e ∈ table, e.sid = s ∧ e.cnt ≠ 0) ∧
    (∀ p ∈ (generate_service_files table users sc).1,
      ∃ u, lookupAssoc p.1 users = some u ∧
        p.2 = mkDoc u p.1 (groupedSheets table p.1) sc) := by
  have hw := writeDocs_ok users sc (buildServiceDict table)
    (users_total_dict table users h)
  have hfst : (generate_service_files table users sc).1.map Prod.fst =
      (buildServiceDict table).map Prod.fst := by
    unfold generate_service_files
    rw [hw, List.map_map]
    rfl
  refine ⟨?_, ?_, ?_, gen_docs_spec table users sc h⟩
  · unfold generate_service_files
    rw [hw]
  · rw [hfst]
    exact nodup_keys_buildServiceDict table
  · intro s
    rw [hfst, mem_keys_iff_lookup, lookupAssoc_buildServiceDict,
      ← groupedSheets_ne_nil_iff]
    by_cases hg : groupedSheets table s = []
    · simp [hg]
    · simp [hg]

/-- C5 witness: the aggregation contract at the concrete one-row
example inputs. -/
theorem C5_witness :
    (generate_service_files exTable exUsers exScripts).2 = none ∧
    ((generate_service_files exTable exUsers exScripts).1.map Prod.fst).Nodup ∧
    (∀ s, s ∈ (generate_service_files exTable exUsers exScripts).1.map Prod.fst ↔
      ∃ e ∈ exTable, e.sid = s ∧ e.cnt ≠ 0) ∧
    (∀ p ∈ (generate_service_files exTable exUsers exScripts).1,
      ∃ u, lookupAssoc p.1 exUsers = some u ∧
        p.2 = mkDoc u p.1 (groupedSheets exTable p.1) exScripts) :=
  C5_one_document_per_service exTable exUsers exScripts (by decide)

/-- C6 counterexample: at the concrete example inputs the emitted
document differs from the claim template, because the written header
has a space between the padded destination and the service prefix and
the OA line carries a trailing space. -/
theorem C6_counterexample :
    ((generate_service_files exTable exUsers exScripts).1.map Prod.fst =
      [("1".data)]) ∧
    ((generate_service_files exTable exUsers exScripts).1.map Prod.snd ≠
      [C6_claimDoc ("cell".data) ("1".data) [("A".data)] exScripts]) := by
  decide

/-- C6 amended: each emitted document is exactly the upper-cased
destination, a blank line, the destination padded to width twelve
followed by one space and the prefixed service id, a blank line, the
line OA-colon-space, a blank line, and the sheet sections (underscored
sheet name with the script suffix, then the cached lines with trailing
newline or an empty body) joined by the separator block, which never
follows the last section. -/
theorem C6_document_template (table : List Entry)
    (users : List (List Char × List Char))
    (sc : List ((List Char × List Char) × List (List Char)))
    (h : ∀ e ∈ table, e.cnt ≠ 0 → (lookupAssoc e.sid users).isSome = true) :
    ∀ p ∈ (generate_service_files table users sc).1,
      ∃ u, lookupAssoc p.1 users = some u ∧
        p.2 = pyUpperL u ++ "\n\n".data ++
          pyLJust12 u ++ " service_".data ++ p.1 ++ "\n\n".data ++
          "OA: \n\n".data ++
          joinWith sepBlock ((groupedSheets table p.1).map fun sh =>
            underscored sh ++ "_script\n".data ++ sectionBody sh p.1 sc) := by
  intro p hp
  obtain ⟨u, hu, hdoc⟩ := gen_docs_spec table users sc h p hp
  refine ⟨u, hu, ?_⟩
  rw [hdoc]
  unfold mkDoc
  rw [sheetSections_eq_joinWith]
  rfl

/-- C6 witness: the amended template at the one concrete document the
example inputs produce. -/
theorem C6_witness :
    ∃ u, lookupAssoc exPair.1 exUsers = some u ∧
      exPair.2 = pyUpperL u ++ "\n\n".data ++
        pyLJust12 u ++ " service_".data ++ exPair.1 ++ "\n\n".data ++
        "OA: \n\n".data ++
        joinWith sepBlock ((groupedSheets exTable exPair.1).map fun sh =>
          underscored sh ++ "_script\n".data ++ sectionBody sh exPair.1 exScripts) :=
  C6_document_template exTable exUsers exScripts (by decide) exPair (by decide)

/-!
Model validation: the worked scenarios of the specification evaluated
on the embedding.
-/

/-- Scenario check: the raw code of the spec example cleans to the
bare digits and formats to the exact documented action line. -/
theorem scenario_clean_format :
    clean_codes [(" 27-84?0001402 ".data)] = [("27840001402".data)] ∧
    format_action_lines [("27840001402".data)] ("cellfsc".data) =
      [("\x7b \"?.?.27840001402\" \x7d  : Actions SET_DEST_LA(\"cellfsc\"),SET_ESME_GROUP(SAG_GROUP_1, A_ADDR)".data)] := by
  decide

/-- Scenario check: three case and whitespace variants of one key
yield a single deduplicated raw code, under bare, prefixed and padded
query forms, and an unknown key yields nothing. -/
theorem scenario_matcher :
    find_service_codes (some tstTable) ("1056".data) = [("27-84?0001402".data)] ∧
    find_service_codes (some tstTable) ("Service_1056".data) =
      [("27-84?0001402".data)] ∧
    find_service_codes (some tstTable) ("  1056  ".data) =
      [("27-84?0001402".data)] ∧
    find_service_codes (some tstTable) ("9999".data) = [] := by
  decide

/-- Scenario check: a two-sheet service produces one document with the
separator between the two sections and not after the last, matching a
byte-for-byte transcript of the Python output. -/
theorem scenario_aggregator :
    generate_service_files
      [⟨("Sheet A".data), ("1".data), ("u".data), 1⟩,
       ⟨("B".data), ("1".data), ("u".data), 2⟩,
       ⟨("C".data), ("2".data), ("v".data), 0⟩]
      [(("1".data), ("cell".data)), (("2".data), ("dst".data))]
      [((("Sheet A".data), ("1".data)), [("l1".data), ("l2".data)])] =
    ([(("1".data),
       ("CELL\n\ncell         service_1\n\nOA: \n\nSheet_A_script\nl1\nl2\n\n*****************************************\n\nB_script\n".data))],
     none) := by
  decide
